import Mathlib

/-!
# Verification of the hypepsych trading-journal core

Shallow embedding of the journal's tagging / usage-statistics subsystem
(`emotional_analysis.py`), the journal persistence layer (`journal.py`) and the
trade-list operations of the application shell (`app.py`), together with
theorems settling the specification claims.

Conventions used throughout:
* Python dicts are modelled as association lists (`List (String × _)`), looked
  up by first occurrence; keys coming from parsed JSON objects are unique.
* Python strings are Lean `String`s; where the code manipulates the character
  sequence (split / strip / join) we work on `String.data : List Char`.
* Machine-level facilities that are external to the repository (the JSON
  parser, `float`, `hash`, timestamp formatting, the filesystem and which
  I/O operations fail) are taken as explicit parameters of the model.
-/

/-! ## Usage statistics (`emotional_analysis.py`)

`st.session_state.emotional_usage_stats` is a dict from category name to a
`defaultdict(int)` from tag value to count.  We model each level as an
association list; a missing entry has implicit count 0. -/

/-- First-occurrence lookup in an association list modelling a Python dict. -/
def alookup (l : List (String × α)) (k : String) : Option α :=
  match l with
  | [] => none
  | (a, b) :: t => if k = a then some b else alookup t k

/-- Per-category counters: tag value → count (`defaultdict(int)`). -/
abbrev CatStats := List (String × Nat)

/-- The whole usage-statistics mapping: category → counters. -/
abbrev UsageStats := List (String × CatStats)

/-- `initialize_usage_stats` (emotional_analysis.py lines 35-43): the session
stats dict starts with the four category keys, each an empty counter. -/
def initialize_usage_stats : UsageStats :=
  [("emotional_states", []), ("triggers", []), ("mistakes", []), ("actions", [])]

/-- Dict read with default 0: `stats[category].get(item, 0)` on a
`defaultdict(int)` viewed without vivification. -/
def catGet (cs : CatStats) (item : String) : Nat :=
  (alookup cs item).getD 0

/-- `stats[category][item] += 1` on a `defaultdict(int)`: an existing entry is
incremented in place, a missing entry is created (at the end) with value 1. -/
def catInc (cs : CatStats) (item : String) : CatStats :=
  if (alookup cs item).isSome then
    cs.map (fun p => (p.1, if p.1 = item then p.2 + 1 else p.2))
  else
    cs ++ [(item, 1)]

/-- Dict assignment `stats[category] = cs`: replaces the value of an existing
key in place, otherwise appends the new key at the end. -/
def setCat (st : UsageStats) (c : String) (cs : CatStats) : UsageStats :=
  if (alookup st c).isSome then
    st.map (fun p => (p.1, if p.1 = c then cs else p.2))
  else
    st ++ [(c, cs)]

/-- `update_usage_stats(category, selected_items)` (lines 45-49): when the
category key is present, increment each selected item's counter by one;
otherwise do nothing. -/
def update_usage_stats (st : UsageStats) (category : String) (items : List String) :
    UsageStats :=
  if (alookup st category).isSome then
    setCat st category (items.foldl (fun cs it => catInc cs it) ((alookup st category).getD []))
  else
    st

/-- Line 53: `st.session_state.emotional_usage_stats.get(category, {}).get(item, 0)`. -/
def usage_count (st : UsageStats) (category item : String) : Nat :=
  catGet ((alookup st category).getD []) item

/-- `get_bubble_size(category, item)` (lines 51-62): CSS size class from the
usage count. -/
def get_bubble_size (st : UsageStats) (category item : String) : String :=
  let usageCount := usage_count st category item
  if usageCount = 0 then "bubble-small"
  else if usageCount ≤ 2 then "bubble-medium"
  else if usageCount ≤ 5 then "bubble-large"
  else "bubble-xlarge"

/-- The usage-statistics side effect of one execution (one Streamlit render)
of `create_emotional_analysis_form` (lines 280-288), given the four selection
lists returned by the bubble selectors: every non-empty selection is folded
into the counters each time the form function runs. -/
def create_emotional_analysis_form_stats (st : UsageStats)
    (selE selT selM selA : List String) : UsageStats :=
  let s1 := if selE ≠ [] then update_usage_stats st "emotional_states" selE else st
  let s2 := if selT ≠ [] then update_usage_stats s1 "triggers" selT else s1
  let s3 := if selM ≠ [] then update_usage_stats s2 "mistakes" selM else s2
  if selA ≠ [] then update_usage_stats s3 "actions" selA else s3

/-! ## The persisted stats file (`load_emotional_stats`, lines 356-370) -/

/-- Outcome of looking for and parsing `emotional_stats.json`. -/
inductive StatsFile where
  | missing
  | malformed
  | parsed (entries : List (String × CatStats))

/-- `load_emotional_stats()` (lines 356-370): a missing file is skipped and the
function returns `True`; a file that fails to parse hits the `except` handler
and returns `False` with the stats untouched; a parsed file assigns, for every
category key it contains, `stats[category] = defaultdict(int, category_stats)`
(wholesale per-category assignment), then returns `True`. -/
def load_emotional_stats (file : StatsFile) (st : UsageStats) : UsageStats × Bool :=
  match file with
  | .missing => (st, true)
  | .malformed => (st, false)
  | .parsed entries => (entries.foldl (fun acc p => setCat acc p.1 p.2) st, true)

/-! ## Tag-string serialization and seeding

`create_emotional_analysis_form` stores each category selection as
`', '.join(selected)` (lines 334-339) and seeds an editing context by
`stored.split(', ')`, stripping and dropping empties (lines 236-245).
We embed Python's `str.split(', ')`, `str.strip()` and `', '.join` directly
on the character lists underlying the strings. -/

/-- Python `s.split(', ')`: split on each leftmost non-overlapping occurrence
of the two-character separator.  `''.split(', ') = ['']`. -/
def pySplitCS : List Char → List (List Char)
  | [] => [[]]
  | [c] => [[c]]
  | c :: d :: rest =>
    if c = ',' ∧ d = ' ' then
      [] :: pySplitCS rest
    else
      match pySplitCS (d :: rest) with
      | h :: t => (c :: h) :: t
      | [] => [[c]]

/-- Whether the two-character separator `", "` occurs in a string. -/
def hasSep : List Char → Bool
  | c :: d :: rest => (c == ',' && d == ' ') || hasSep (d :: rest)
  | _ => false

/-- Python `s.strip()` (whitespace at both ends removed). -/
def pyStrip (s : List Char) : List Char :=
  ((s.dropWhile Char.isWhitespace).reverse.dropWhile Char.isWhitespace).reverse

/-- Seeding a selection from a stored tag string (lines 236-245): the empty
string yields no selections (`existing_data.get(...)` is falsy); otherwise
split on `', '`, strip each piece and drop the pieces that strip to empty. -/
def seed_tag_values (stored : String) : List String :=
  if stored = "" then []
  else ((pySplitCS stored.data).map (fun l => String.mk (pyStrip l))).filter
    (fun s => !(s == ""))

/-- `', '.join(selected)` (lines 334-339), applied to the list that
`create_interactive_bubble_selector` returned (`list(selected_set)`, in the
set's iteration order, which CPython leaves unspecified). -/
def serialize_tags (sel : List String) : String :=
  String.mk (List.intercalate [',', ' '] (sel.map String.data))

/-- The dict returned by `create_emotional_analysis_form` (lines 334-339). -/
structure EmotionalData where
  emotional_state : String
  triggers : String
  mistakes : String
  corrective_action : String
deriving Repr, DecidableEq

/-- Lines 334-339: the four category selections joined with `', '`. -/
def create_emotional_analysis_form_result (selE selT selM selA : List String) :
    EmotionalData :=
  { emotional_state := serialize_tags selE
    triggers := serialize_tags selT
    mistakes := serialize_tags selM
    corrective_action := serialize_tags selA }

/-- Code-point lexicographic comparison of character lists, the order Python's
`sorted` uses on strings. -/
def lexLe : List Char → List Char → Bool
  | [], _ => true
  | _ :: _, [] => false
  | a :: as, b :: bs => if a = b then lexLe as bs else decide (a < b)

/-- Generic insertion step for insertion sort. -/
def insertLe (le : α → α → Bool) (a : α) : List α → List α
  | [] => [a]
  | b :: t => if le a b then a :: b :: t else b :: insertLe le a t

/-- Insertion sort with a boolean comparison. -/
def isortLe (le : α → α → Bool) (l : List α) : List α :=
  l.foldr (insertLe le) []

/-- Modelled from the spec's words (§4.3 `snapshot`/`serialize`): the claimed
canonical serialization, `", ".join` of the selection sorted lexicographically.
Stated only to compare the source's behavior against it. -/
def spec_snapshot_serialize (sel : List String) : String :=
  String.mk (List.intercalate [',', ' ']
    ((isortLe (fun a b => lexLe a.data b.data) sel).map String.data))

/-! ## JSON documents and the journal store (`journal.py`)

`journal.py` imports `json`, `hashlib`, `time` and the hyperliquid client at
module level; `os` is imported only *locally* inside `save_journal_data`
(line 75), so the name `os` is unbound inside `load_journal_data`. -/

/-- A parsed JSON value (numbers restricted to integers; no claim depends on
float literals in journal documents). -/
inductive JVal where
  | jnull
  | jbool (b : Bool)
  | jnum (n : Int)
  | jstr (s : String)
  | jarr (elems : List JVal)
  | jobj (fields : List (String × JVal))
deriving Repr

/-- State of one file as `json.load` sees it. -/
inductive JFile where
  | malformed
  | parsed (v : JVal)

/-- What a call of `load_journal_data` does, as observed by the caller. -/
inductive LoadResult where
  | doc (d : JVal)
  | noneResult
  | raised (exc : String)
deriving Repr

/-- Line 107: `required_keys = ['trades', 'manual_trades', 'reflections']`. -/
def requiredKeys : List String := ["trades", "manual_trades", "reflections"]

/-- First-occurrence lookup in a JSON object's field list. -/
def lookupField (fields : List (String × JVal)) (k : String) : Option JVal :=
  alookup fields k

/-- Lines 108-110: `if key not in data: data[key] = [] if key != 'reflections'
else {}` (dict insertion appends the new key). -/
def backfillKey (fields : List (String × JVal)) (k : String) : List (String × JVal) :=
  if (lookupField fields k).isSome then fields
  else fields ++ [(k, if k = "reflections" then JVal.jobj [] else JVal.jarr [])]

/-- The backfill loop over the three required keys. -/
def backfillRequired (fields : List (String × JVal)) : List (String × JVal) :=
  requiredKeys.foldl backfillKey fields

/-- `load_journal_data(filename)` (lines 94-130), exactly as the source is
written:
* missing file → `except FileNotFoundError` → a bare `print` expression →
  the function falls off the end and returns `None`;
* file present but `json.load` raises → `except json.JSONDecodeError` handler,
  whose first real step `os.path.exists(backup_filename)` (line 119) raises
  `NameError` because `journal.py` never binds `os` at module level; the
  `NameError` is caught by neither `except` clause and escapes to the caller,
  so the backup file is never consulted;
* file parses to a non-dict → `raise ValueError(...)` (line 104), which is
  likewise caught by neither clause and escapes;
* file parses to a dict → the three required keys are backfilled and the dict
  is returned. -/
def load_journal_data (fs : String → Option JFile) (filename : String) : LoadResult :=
  match fs filename with
  | none => LoadResult.noneResult
  | some JFile.malformed => LoadResult.raised "NameError"
  | some (JFile.parsed v) =>
    match v with
    | JVal.jobj fields => LoadResult.doc (JVal.jobj (backfillRequired fields))
    | _ => LoadResult.raised "ValueError"

/-! ### Writing the journal (`save_journal_data`, lines 69-92)

`json.dump(data, f, indent=4, sort_keys=True)` sorts the keys of every object
(Python compares strings by code points) and pretty-prints with a four-space
indent.  We model the dump as a canonicalization pass that sorts keys
recursively, followed by a textual renderer mirroring CPython's formatting. -/

/-- Key comparison used by `sort_keys=True`. -/
def pairKeyLe (p q : String × JVal) : Bool := lexLe p.1.data q.1.data

/-- One level of key sorting: insertion sort of an object's fields by key,
in code-point lexicographic order. -/
def sortPairs (fields : List (String × JVal)) : List (String × JVal) :=
  isortLe pairKeyLe fields

mutual
/-- Recursively sort every object's keys, as `sort_keys=True` does. -/
def sortKeysRec : JVal → JVal
  | .jnull => .jnull
  | .jbool b => .jbool b
  | .jnum n => .jnum n
  | .jstr s => .jstr s
  | .jarr xs => .jarr (sortKeysArr xs)
  | .jobj fields => .jobj (sortPairs (sortKeysObj fields))

def sortKeysArr : List JVal → List JVal
  | [] => []
  | x :: xs => sortKeysRec x :: sortKeysArr xs

def sortKeysObj : List (String × JVal) → List (String × JVal)
  | [] => []
  | (k, v) :: fields => (k, sortKeysRec v) :: sortKeysObj fields
end

/-- Adjacent-pairs check: every element is `le` its successor. -/
def chainLeB (le : α → α → Bool) : List α → Bool
  | a :: b :: t => le a b && chainLeB le (b :: t)
  | _ => true

/-- Adjacent key order check for one field list. -/
def keysLeB (fields : List (String × JVal)) : Bool :=
  chainLeB pairKeyLe fields

mutual
/-- Every object at every depth has its keys in (adjacently) sorted order. -/
def keysSortedB : JVal → Bool
  | .jarr xs => keysSortedArrB xs
  | .jobj fields => keysLeB fields && keysSortedObjB fields
  | _ => true

def keysSortedArrB : List JVal → Bool
  | [] => true
  | x :: xs => keysSortedB x && keysSortedArrB xs

def keysSortedObjB : List (String × JVal) → Bool
  | [] => true
  | p :: fields => keysSortedB p.2 && keysSortedObjB fields
end

/-- Four hex digits (lowercase), as CPython's `\uXXXX` escapes print them. -/
def hex4 (n : Nat) : String :=
  let dig := fun (d : Nat) =>
    if d < 10 then Char.ofNat (48 + d) else Char.ofNat (87 + d)
  String.mk [dig (n / 4096 % 16), dig (n / 256 % 16), dig (n / 16 % 16), dig (n % 16)]

/-- JSON string escaping with `ensure_ascii=True` (CPython default): the short
escapes, `\u00XX` for remaining control characters, `\uXXXX` for non-ASCII,
surrogate pairs above the BMP. -/
def escapeJsonChar (c : Char) : String :=
  if c = '"' then "\\\""
  else if c = '\\' then "\\\\"
  else if c = '\n' then "\\n"
  else if c = '\t' then "\\t"
  else if c = '\r' then "\\r"
  else if c.toNat = 8 then "\\b"
  else if c.toNat = 12 then "\\f"
  else if c.toNat < 32 ∨ c.toNat > 126 then
    if c.toNat < 65536 then "\\u" ++ hex4 c.toNat
    else
      let m := c.toNat - 65536
      "\\u" ++ hex4 (55296 + m / 1024) ++ "\\u" ++ hex4 (56320 + m % 1024)
  else String.singleton c

/-- A JSON string literal, quoted and escaped. -/
def renderJsonString (s : String) : String :=
  "\"" ++ String.join (s.data.map escapeJsonChar) ++ "\""

/-- `indent * level` spaces. -/
def pad (lvl : Nat) : String :=
  String.mk (List.replicate (4 * lvl) ' ')

mutual
/-- CPython `json.dump(..., indent=4)` text for a (key-sorted) value. -/
def renderVal (lvl : Nat) : JVal → String
  | .jnull => "null"
  | .jbool b => if b then "true" else "false"
  | .jnum n => toString n
  | .jstr s => renderJsonString s
  | .jarr xs =>
    match renderItems (lvl + 1) xs with
    | [] => "[]"
    | lines => "[\n" ++ String.intercalate ",\n" lines ++ "\n" ++ pad lvl ++ "]"
  | .jobj fields =>
    match renderFields (lvl + 1) fields with
    | [] => "\x7b\x7d"
    | lines => "\x7b\n" ++ String.intercalate ",\n" lines ++ "\n" ++ pad lvl ++ "\x7d"

/-- One indented line per array element. -/
def renderItems (lvl : Nat) : List JVal → List String
  | [] => []
  | x :: xs => (pad lvl ++ renderVal lvl x) :: renderItems lvl xs

/-- One indented `"key": value` line per object field. -/
def renderFields (lvl : Nat) : List (String × JVal) → List String
  | [] => []
  | p :: fields =>
    (pad lvl ++ renderJsonString p.1 ++ ": " ++ renderVal lvl p.2) :: renderFields lvl fields
end

/-- The exact text `json.dump(data, f, indent=4, sort_keys=True)` writes. -/
def pyJsonDumps (data : JVal) : String :=
  renderVal 0 (sortKeysRec data)

/-- Which of `save_journal_data`'s I/O steps fail in a given run; these are
decided by the operating system, not by the repository's code. -/
structure SaveEnv where
  copyFails : Bool
  openFails : Bool
  dumpFails : Bool

/-- Result of `save_journal_data`: the filesystem afterwards, the returned
boolean, and whether an exception escaped to the caller. -/
structure SaveOutcome where
  fs : String → Option String
  ret : Bool
  raised : Bool

/-- Point update of a modelled filesystem. -/
def fsSet (fs : String → Option String) (k : String) (v : Option String) :
    String → Option String :=
  fun p => if p = k then v else fs p

/-- `save_journal_data(filename, data)` (journal.py lines 69-92):
* if the file exists, try `shutil.copy2(filename, filename + ".backup")`;
  a failing copy is caught by the inner `try` and only prints a warning
  (lines 76-82);
* then `open(filename, 'w')` and `json.dump(data, f, indent=4,
  sort_keys=True)` (lines 85-86); `open('w')` truncates before `dump` runs,
  so a failing dump leaves a truncated file (modelled as `""`);
* `return True` on success (line 88); any exception in the outer `try` is
  caught and turned into `return False` (lines 90-92), so nothing escapes. -/
def save_journal_data (env : SaveEnv) (fs : String → Option String)
    (filename : String) (data : JVal) : SaveOutcome :=
  let fs1 :=
    match fs filename with
    | some contents =>
      if env.copyFails then fs else fsSet fs (filename ++ ".backup") (some contents)
    | none => fs
  if env.openFails then { fs := fs1, ret := false, raised := false }
  else if env.dumpFails then
    { fs := fsSet fs1 filename (some ""), ret := false, raised := false }
  else
    { fs := fsSet fs1 filename (some (pyJsonDumps data)), ret := true, raised := false }

/-! ## Trade records and the application shell (`app.py`) -/

/-- One trade record as stored in the session lists (the dict shape produced
by `format_trade_for_display` and by the manual-trade form).  The source key
`type` is spelled `ttype` here. -/
structure Trade where
  id : String
  coin : String
  side : String
  size : Rat
  price : Rat
  pnl : Rat
  fee : Rat
  time : String
  ttype : String
  leverage : Option Int := none
  last_edited : Option String := none
  emotional_state : Option String := none
  triggers : Option String := none
  mistakes : Option String := none
  corrective_action : Option String := none
deriving Repr, DecidableEq

/-- A fill as returned by the external provider, restricted to the keys
`format_trade_for_display` reads (each read with a default, hence optional). -/
structure Fill where
  oid : Option String := none
  coin : Option String := none
  side : Option String := none
  sz : Option String := none
  px : Option String := none
  closedPnl : Option String := none
  fee : Option String := none
  timeMs : Option Int := none
deriving Repr, DecidableEq

/-- Runtime facilities external to the repository, taken as parameters:
`float()` on the provider's numeric strings (its value is never inspected by
a claim, so its codomain is simply `Rat`), `hash(str(trade))`, and
`datetime.fromtimestamp(t / 1000).strftime('%Y-%m-%d %H:%M:%S')`. -/
structure PyEnv where
  pyFloat : String → Rat
  pyHashRepr : Fill → Int
  fmtTimestampMs : Int → String

/-- `format_trade_for_display(trade)` for `trade_type="api"` (app.py lines
220-233). -/
def format_trade_for_display (env : PyEnv) (t : Fill) : Trade :=
  { id := t.oid.getD ("api-" ++ toString (env.pyHashRepr t))
    coin := t.coin.getD "Unknown"
    side := if t.side = some "B" then "Long" else "Short"
    size := env.pyFloat (t.sz.getD "0")
    price := env.pyFloat (t.px.getD "0")
    pnl := env.pyFloat (t.closedPnl.getD "0")
    fee := env.pyFloat (t.fee.getD "0")
    time := env.fmtTimestampMs (t.timeMs.getD 0)
    ttype := "API Trade" }

/-- The two session trade lists. -/
structure AppState where
  trades : List Trade
  manual_trades : List Trade
deriving Repr, DecidableEq

/-- The fetch handler (app.py lines 299-311): on a successful fetch the API
trade list is assigned `[format_trade_for_display(t) for t in fills[:10]]`;
`manual_trades` is not touched. -/
def fetch_latest_trades (env : PyEnv) (fills : List Fill) (st : AppState) : AppState :=
  { st with trades := (fills.take 10).map (format_trade_for_display env) }

/-- The manual-trade form fields (app.py lines 407-418). -/
structure ManualForm where
  asset : String
  position_type : String
  size : Rat
  price : Rat
  pnl : Rat
  fees : Rat
  leverage : Int
  entry_str : String
deriving Repr, DecidableEq

/-- The submit handler of the manual-trade form (app.py lines 432-450):
builds the trade dict with `id = f'manual-{datetime.now().timestamp()}'`
(`nowTs` is the rendered timestamp) and appends it to `manual_trades`.
No existing identifier is consulted. -/
def add_manual_trade (nowTs nowFmt : String) (form : ManualForm)
    (emotional : EmotionalData) (st : AppState) : AppState :=
  { st with
    manual_trades := st.manual_trades ++
      [{ id := "manual-" ++ nowTs
         coin := form.asset
         side := form.position_type
         size := form.size
         price := form.price
         pnl := form.pnl
         fee := form.fees
         time := form.entry_str
         ttype := "Manual Trade"
         leverage := some form.leverage
         last_edited := some nowFmt
         emotional_state := some emotional.emotional_state
         triggers := some emotional.triggers
         mistakes := some emotional.mistakes
         corrective_action := some emotional.corrective_action }] }

/-- Identifiers of the combined trade list (`trades` then `manual_trades`),
the set the uniqueness invariant of the spec ranges over. -/
def journal_ids (st : AppState) : List String :=
  (st.trades ++ st.manual_trades).map (fun t => t.id)

/-! ## Association-list lemmas -/

theorem alookup_append {α : Type} (l₁ l₂ : List (String × α)) (k : String) :
    alookup (l₁ ++ l₂) k = (alookup l₁ k).orElse (fun _ => alookup l₂ k) := by
  induction l₁ with
  | nil => simp [alookup]
  | cons p t ih =>
    obtain ⟨a, b⟩ := p
    by_cases hk : k = a
    · simp [alookup, hk]
    · simp [alookup, hk, ih]

theorem alookup_map_setval {α : Type} (l : List (String × α)) (k k' : String) (f : α → α) :
    alookup (l.map (fun p => (p.1, if p.1 = k then f p.2 else p.2))) k' =
      if k' = k then (alookup l k').map f else alookup l k' := by
  induction l with
  | nil => simp [alookup]
  | cons p t ih =>
    obtain ⟨a, b⟩ := p
    by_cases hk : k' = a
    · subst hk
      by_cases hak : k' = k
      · simp [alookup, hak]
      · simp [alookup, hak]
    · by_cases hak : k' = k
      · subst hak
        simp [alookup, hk, ih]
      · simp [alookup, hk, ih, hak]

theorem alookup_setCat_self (st : UsageStats) (c : String) (cs : CatStats) :
    alookup (setCat st c cs) c = some cs := by
  unfold setCat
  by_cases h : (alookup st c).isSome
  · rw [if_pos h, alookup_map_setval st c c (fun _ => cs), if_pos rfl]
    obtain ⟨v, hv⟩ := Option.isSome_iff_exists.mp h
    simp [hv]
  · rw [if_neg h, alookup_append]
    rw [Option.not_isSome_iff_eq_none] at h
    simp [h, alookup]

theorem alookup_setCat_ne (st : UsageStats) (c c' : String) (cs : CatStats) (h : c' ≠ c) :
    alookup (setCat st c cs) c' = alookup st c' := by
  unfold setCat
  by_cases hs : (alookup st c).isSome
  · rw [if_pos hs, alookup_map_setval st c c' (fun _ => cs), if_neg h]
  · rw [if_neg hs, alookup_append]
    simp [alookup, h]

theorem mem_keys_of_alookup_isSome {α : Type} :
    ∀ (l : List (String × α)) (k : String), (alookup l k).isSome = true → k ∈ l.map Prod.fst
  | (a, b) :: t, k, h => by
    by_cases hk : k = a
    · simp [hk]
    · simp only [alookup, if_neg hk] at h
      simp [mem_keys_of_alookup_isSome t k h]

theorem loadFold_alookup_absent :
    ∀ (entries : List (String × CatStats)) (st : UsageStats) (c : String),
      alookup entries c = none →
      alookup (entries.foldl (fun acc p => setCat acc p.1 p.2) st) c = alookup st c
  | [], st, c, _ => rfl
  | (a, cs) :: t, st, c, h => by
    have hca : c ≠ a := by
      intro hh
      simp [alookup, hh] at h
    have ht : alookup t c = none := by
      simpa [alookup, hca] using h
    simp only [List.foldl_cons]
    rw [loadFold_alookup_absent t (setCat st a cs) c ht, alookup_setCat_ne st a c cs hca]

theorem loadFold_alookup_mem :
    ∀ (entries : List (String × CatStats)) (st : UsageStats) (c : String) (cs : CatStats),
      (entries.map Prod.fst).Nodup → (c, cs) ∈ entries →
      alookup (entries.foldl (fun acc p => setCat acc p.1 p.2) st) c = some cs
  | [], _, _, _, _, hmem => absurd hmem (List.not_mem_nil _)
  | (a, b) :: t, st, c, cs, hnd, hmem => by
    simp only [List.map_cons, List.nodup_cons] at hnd
    rcases List.mem_cons.mp hmem with heq | hmem'
    · have hc : c = a := congrArg Prod.fst heq
      have hb : cs = b := congrArg Prod.snd heq
      subst hc
      subst hb
      have ht : alookup t c = none := by
        by_contra hne
        exact hnd.1 (mem_keys_of_alookup_isSome t c (Option.isSome_iff_ne_none.mpr hne))
      simp only [List.foldl_cons]
      rw [loadFold_alookup_absent t (setCat st c cs) c ht, alookup_setCat_self]
    · have hca : c ≠ a := by
        intro hh
        subst hh
        exact hnd.1 (List.mem_map_of_mem Prod.fst hmem')
      simp only [List.foldl_cons]
      exact loadFold_alookup_mem t (setCat st a b) c cs hnd.2 hmem'

/-! ## Claim C2 -/

/-- In-memory stats holding a count the persisted file does not mention. -/
def statsWithPanic : UsageStats :=
  [("emotional_states", [("Panic", 5)]), ("triggers", []), ("mistakes", []), ("actions", [])]

/-- A well-formed stats file recording only `Fear`. -/
def fearOnlyFile : StatsFile :=
  StatsFile.parsed [("emotional_states", [("Fear", 2)])]

/-- C2, counterexample: loading a parsed stats file does not merge counts into
the current counters — the in-memory count `Panic ↦ 5` is wiped out by the
per-category assignment, leaving only the file's `Fear ↦ 2`. -/
theorem C2_load_replaces_counterexample :
    usage_count statsWithPanic "emotional_states" "Panic" = 5 ∧
    (load_emotional_stats fearOnlyFile statsWithPanic).2 = true ∧
    usage_count (load_emotional_stats fearOnlyFile statsWithPanic).1
      "emotional_states" "Panic" = 0 ∧
    usage_count (load_emotional_stats fearOnlyFile statsWithPanic).1
      "emotional_states" "Fear" = 2 := by
  decide

/-- C2, amended: `load_emotional_stats` treats a missing file as success with
no state change and a malformed file as a reported failure (`False`) with the
state unchanged, but for a file that parses it *replaces* — per category key
present in the file — the in-memory counters of that category wholesale with
the file's counts, leaving only the categories absent from the file
unchanged. -/
theorem C2_load_semantics :
    ∀ (file : StatsFile) (st : UsageStats),
      (file = StatsFile.missing → load_emotional_stats file st = (st, true)) ∧
      (file = StatsFile.malformed → load_emotional_stats file st = (st, false)) ∧
      (∀ entries, file = StatsFile.parsed entries →
        (load_emotional_stats file st).2 = true ∧
        (∀ c, alookup entries c = none →
          alookup (load_emotional_stats file st).1 c = alookup st c) ∧
        ((entries.map Prod.fst).Nodup → ∀ c cs, (c, cs) ∈ entries →
          alookup (load_emotional_stats file st).1 c = some cs)) := by
  intro file st
  refine ⟨fun h => by rw [h]; rfl, fun h => by rw [h]; rfl, ?_⟩
  intro entries h
  subst h
  refine ⟨rfl, fun c hc => ?_, fun hnd c cs hmem => ?_⟩
  · exact loadFold_alookup_absent entries st c hc
  · exact loadFold_alookup_mem entries st c cs hnd hmem

/-- C2, witness: `C2_load_semantics` applied to concrete stats and files. -/
theorem C2_load_semantics_witness :
    (load_emotional_stats StatsFile.missing statsWithPanic = (statsWithPanic, true)) ∧
    (load_emotional_stats StatsFile.malformed statsWithPanic = (statsWithPanic, false)) ∧
    alookup (load_emotional_stats fearOnlyFile statsWithPanic).1 "triggers" =
      alookup statsWithPanic "triggers" ∧
    alookup (load_emotional_stats fearOnlyFile statsWithPanic).1 "emotional_states" =
      some [("Fear", 2)] :=
  ⟨(C2_load_semantics StatsFile.missing statsWithPanic).1 rfl,
   (C2_load_semantics StatsFile.malformed statsWithPanic).2.1 rfl,
   ((C2_load_semantics fearOnlyFile statsWithPanic).2.2 [("emotional_states", [("Fear", 2)])]
     rfl).2.1 "triggers" (by decide),
   ((C2_load_semantics fearOnlyFile statsWithPanic).2.2 [("emotional_states", [("Fear", 2)])]
     rfl).2.2 (by decide) "emotional_states" [("Fear", 2)] (by decide)⟩

/-! ## Claim C1 -/

/-- C1: the claim says building or re-rendering the emotional-analysis form
never mutates the usage counters and that counting happens exactly once per
save through an explicit caller-side record action.  In the source, lines
280-288 of `create_emotional_analysis_form` call `update_usage_stats` on every
execution of the form function — i.e. on every Streamlit render — and no save
handler in `app.py` records usage separately.  Concretely: starting from fresh
stats, rendering the form with the single selection `Fear` leaves `Fear` at
count 1, and re-rendering the identical, unchanged selection (no save having
happened) raises it to 2. -/
theorem C1_form_render_increments :
    usage_count (create_emotional_analysis_form_stats initialize_usage_stats
      ["Fear"] [] [] []) "emotional_states" "Fear" = 1 ∧
    usage_count (create_emotional_analysis_form_stats
      (create_emotional_analysis_form_stats initialize_usage_stats ["Fear"] [] [] [])
      ["Fear"] [] [] []) "emotional_states" "Fear" = 2 := by
  decide

/-! ## Claim C8 -/

/-- The four usage tiers named by the spec. -/
inductive UsageTier where
  | tnone
  | tlow
  | tmedium
  | thigh
deriving Repr, DecidableEq

/-- Modelled from the spec's words (§4.2 `tier`): count 0 → none, 1-2 → low,
3-5 → medium, 6+ → high.  Stated to compare the source's tiering against. -/
def tier_of_count (n : Nat) : UsageTier :=
  if n = 0 then UsageTier.tnone
  else if n ≤ 2 then UsageTier.tlow
  else if n ≤ 5 then UsageTier.tmedium
  else UsageTier.thigh

/-- The CSS class the display layer uses for each tier. -/
def css_of_tier : UsageTier → String
  | UsageTier.tnone => "bubble-small"
  | UsageTier.tlow => "bubble-medium"
  | UsageTier.tmedium => "bubble-large"
  | UsageTier.thigh => "bubble-xlarge"

/-- C8: for every category and tag value, `get_bubble_size` is exactly the
tier of the usage count rendered as a CSS class — it is a pure function of the
count (two lookups with equal counts give equal classes), and the tier
boundaries are count 0 → none, 1-2 → low, 3-5 → medium, 6+ → high. -/
theorem C8_tier_boundaries :
    ∀ (st : UsageStats) (category item : String),
      get_bubble_size st category item =
        css_of_tier (tier_of_count (usage_count st category item)) ∧
      (∀ (st' : UsageStats) (category' item' : String),
        usage_count st category item = usage_count st' category' item' →
        get_bubble_size st category item = get_bubble_size st' category' item') ∧
      tier_of_count 0 = UsageTier.tnone ∧
      (∀ n, 1 ≤ n → n ≤ 2 → tier_of_count n = UsageTier.tlow) ∧
      (∀ n, 3 ≤ n → n ≤ 5 → tier_of_count n = UsageTier.tmedium) ∧
      (∀ n, 6 ≤ n → tier_of_count n = UsageTier.thigh) := by
  have key : ∀ (st : UsageStats) (category item : String),
      get_bubble_size st category item =
        css_of_tier (tier_of_count (usage_count st category item)) := by
    intro st category item
    simp only [get_bubble_size, tier_of_count]
    split_ifs <;> rfl
  intro st category item
  refine ⟨key st category item, fun st' c' i' h => ?_, rfl, ?_, ?_, ?_⟩
  · rw [key st category item, key st' c' i', h]
  · intro n h1 h2
    unfold tier_of_count
    rw [if_neg (by omega), if_pos h2]
  · intro n h1 h2
    unfold tier_of_count
    rw [if_neg (by omega), if_neg (by omega), if_pos h2]
  · intro n h1
    unfold tier_of_count
    rw [if_neg (by omega), if_neg (by omega), if_neg (by omega)]

/-- C8, witness: `C8_tier_boundaries` applied at count 4 (tier medium). -/
theorem C8_tier_boundaries_witness :
    get_bubble_size [("emotional_states", [("Fear", 4)])] "emotional_states" "Fear" =
      css_of_tier (tier_of_count 4) ∧
    get_bubble_size [("emotional_states", [("Fear", 4)])] "emotional_states" "Fear" =
      get_bubble_size [("triggers", [("Hype", 4)])] "triggers" "Hype" ∧
    tier_of_count 4 = UsageTier.tmedium :=
  ⟨(C8_tier_boundaries [("emotional_states", [("Fear", 4)])] "emotional_states" "Fear").1,
   (C8_tier_boundaries [("emotional_states", [("Fear", 4)])] "emotional_states" "Fear").2.1
     [("triggers", [("Hype", 4)])] "triggers" "Hype" (by decide),
   (C8_tier_boundaries [] "" "").2.2.2.2.1 4 (by decide) (by decide)⟩

/-! ## Claims C4 and C5 -/

/-- A filesystem whose primary journal file is unparseable and which has no
backup file at all. -/
def fsCorruptNoBackup : String → Option JFile :=
  fun p => if p = "trade-log-20260101.json" then some JFile.malformed else none

/-- C4: with the source as written, a primary journal file that fails to parse
does not produce a reportable load failure at all — the `JSONDecodeError`
handler's first step `os.path.exists(...)` (journal.py line 119) raises
`NameError` (the module never imports `os` at top level) and that exception
escapes `load_journal_data`; a missing file, by contrast, returns `None`.
The claimed distinguishable `CorruptJournal` load failure does not exist. -/
theorem C4_corrupt_load_raises :
    load_journal_data fsCorruptNoBackup "trade-log-20260101.json" =
      LoadResult.raised "NameError" ∧
    load_journal_data (fun _ => none) "trade-log-20260101.json" =
      LoadResult.noneResult := by
  constructor
  · rfl
  · rfl

/-- A valid journal document sitting in the backup file. -/
def backupDoc : JVal :=
  JVal.jobj [("trades", JVal.jarr []), ("manual_trades", JVal.jarr []),
    ("reflections", JVal.jobj [])]

/-- A filesystem whose primary journal file is unparseable but whose
`.backup` sibling holds a valid document. -/
def fsCorruptWithBackup : String → Option JFile :=
  fun p =>
    if p = "trade-log-20260101.json" then some JFile.malformed
    else if p = "trade-log-20260101.json.backup" then some (JFile.parsed backupDoc)
    else none

/-- C5: even with a perfectly valid `.backup` sibling, loading a malformed
primary file never returns the backup's contents — the handler raises
`NameError` (unbound `os`, journal.py line 119) before the backup is ever
opened, so the fallback at lines 117-125 is dead code. -/
theorem C5_backup_never_loaded :
    load_journal_data fsCorruptWithBackup "trade-log-20260101.json" =
      LoadResult.raised "NameError" := by
  rfl

/-! ## Claim C6 -/

theorem backfillKey_of_isSome (fields : List (String × JVal)) (k : String)
    (h : (lookupField fields k).isSome) : backfillKey fields k = fields := by
  unfold backfillKey
  rw [if_pos h]

theorem lookupField_backfillKey_absent (fields : List (String × JVal)) (k : String)
    (h : lookupField fields k = none) :
    lookupField (backfillKey fields k) k =
      some (if k = "reflections" then JVal.jobj [] else JVal.jarr []) := by
  have h' : alookup fields k = none := h
  unfold backfillKey
  rw [if_neg (by simp [lookupField, h'])]
  unfold lookupField
  rw [alookup_append, h']
  simp [alookup]

theorem lookupField_backfillKey_ne (fields : List (String × JVal)) (k k' : String)
    (h : k' ≠ k) :
    lookupField (backfillKey fields k) k' = lookupField fields k' := by
  unfold backfillKey
  by_cases hs : (lookupField fields k).isSome
  · rw [if_pos hs]
  · rw [if_neg hs]
    unfold lookupField
    rw [alookup_append]
    simp [alookup, h]

theorem lookupField_backfillKey_pres (fields : List (String × JVal)) (k k' : String)
    (v : JVal) (h : lookupField fields k' = some v) :
    lookupField (backfillKey fields k) k' = some v := by
  by_cases hk : k' = k
  · subst hk
    rw [backfillKey_of_isSome fields k' (by simp [h]), h]
  · rw [lookupField_backfillKey_ne fields k k' hk, h]

theorem backfillRequired_eq (fields : List (String × JVal)) :
    backfillRequired fields =
      backfillKey (backfillKey (backfillKey fields "trades") "manual_trades")
        "reflections" := rfl

theorem lookupField_backfillRequired (fields0 : List (String × JVal)) (k : String)
    (hk : k ∈ requiredKeys) :
    lookupField (backfillRequired fields0) k =
      some ((lookupField fields0 k).getD
        (if k = "reflections" then JVal.jobj [] else JVal.jarr [])) := by
  rw [backfillRequired_eq]
  simp only [requiredKeys, List.mem_cons, List.not_mem_nil, or_false] at hk
  rcases hk with rfl | rfl | rfl
  · rcases hx : lookupField fields0 "trades" with _ | v
    · have h1 := lookupField_backfillKey_absent fields0 "trades" hx
      exact lookupField_backfillKey_pres _ "reflections" "trades" _
        (lookupField_backfillKey_pres _ "manual_trades" "trades" _ h1)
    · exact lookupField_backfillKey_pres _ "reflections" "trades" _
        (lookupField_backfillKey_pres _ "manual_trades" "trades" _
          (lookupField_backfillKey_pres _ "trades" "trades" _ hx))
  · rcases hx : lookupField fields0 "manual_trades" with _ | v
    · have h0 : lookupField (backfillKey fields0 "trades") "manual_trades" = none := by
        rw [lookupField_backfillKey_ne fields0 "trades" "manual_trades" (by decide), hx]
      have h1 := lookupField_backfillKey_absent (backfillKey fields0 "trades")
        "manual_trades" h0
      exact lookupField_backfillKey_pres _ "reflections" "manual_trades" _ h1
    · exact lookupField_backfillKey_pres _ "reflections" "manual_trades" _
        (lookupField_backfillKey_pres _ "manual_trades" "manual_trades" _
          (lookupField_backfillKey_pres _ "trades" "manual_trades" _ hx))
  · rcases hx : lookupField fields0 "reflections" with _ | v
    · have h0 : lookupField (backfillKey (backfillKey fields0 "trades") "manual_trades")
        "reflections" = none := by
        rw [lookupField_backfillKey_ne _ "manual_trades" "reflections" (by decide),
          lookupField_backfillKey_ne _ "trades" "reflections" (by decide), hx]
      exact lookupField_backfillKey_absent _ "reflections" h0
    · exact lookupField_backfillKey_pres _ "reflections" "reflections" _
        (lookupField_backfillKey_pres _ "manual_trades" "reflections" _
          (lookupField_backfillKey_pres _ "trades" "reflections" _ hx))

/-- C6: a journal file that parses to a dict always loads successfully and the
loaded document carries all three required keys — an absent `trades` or
`manual_trades` is backfilled with an empty array, an absent `reflections`
with an empty object, and present keys keep their value; in particular every
document a successful load returns has the three keys populated. -/
theorem C6_load_backfills :
    (∀ (fs : String → Option JFile) (filename : String) (fields0 : List (String × JVal)),
      fs filename = some (JFile.parsed (JVal.jobj fields0)) →
      load_journal_data fs filename =
        LoadResult.doc (JVal.jobj (backfillRequired fields0))) ∧
    (∀ (fields0 : List (String × JVal)) (k : String), k ∈ requiredKeys →
      (lookupField (backfillRequired fields0) k).isSome = true ∧
      (lookupField fields0 k = none →
        lookupField (backfillRequired fields0) k =
          some (if k = "reflections" then JVal.jobj [] else JVal.jarr [])) ∧
      (∀ v, lookupField fields0 k = some v →
        lookupField (backfillRequired fields0) k = some v)) ∧
    (∀ (fs : String → Option JFile) (filename : String) (d : JVal),
      load_journal_data fs filename = LoadResult.doc d →
      ∃ fields, d = JVal.jobj fields ∧
        ∀ k ∈ requiredKeys, (lookupField fields k).isSome = true) := by
  have part2 : ∀ (fields0 : List (String × JVal)) (k : String), k ∈ requiredKeys →
      (lookupField (backfillRequired fields0) k).isSome = true ∧
      (lookupField fields0 k = none →
        lookupField (backfillRequired fields0) k =
          some (if k = "reflections" then JVal.jobj [] else JVal.jarr [])) ∧
      (∀ v, lookupField fields0 k = some v →
        lookupField (backfillRequired fields0) k = some v) := by
    intro fields0 k hk
    have h := lookupField_backfillRequired fields0 k hk
    refine ⟨by simp [h], fun hx => by rw [h, hx]; rfl, fun v hx => by rw [h, hx]; rfl⟩
  refine ⟨?_, part2, ?_⟩
  · intro fs filename fields0 h
    unfold load_journal_data
    rw [h]
  · intro fs filename d h
    unfold load_journal_data at h
    rcases hf : fs filename with _ | file
    · rw [hf] at h
      exact absurd h (by simp)
    · rw [hf] at h
      cases file with
      | malformed => exact absurd h (by simp)
      | parsed v =>
        cases v with
        | jobj fields0 =>
          simp only [LoadResult.doc.injEq] at h
          refine ⟨backfillRequired fields0, h.symm, fun k hk => (part2 fields0 k hk).1⟩
        | jnull => exact absurd h (by simp)
        | jbool b => exact absurd h (by simp)
        | jnum n => exact absurd h (by simp)
        | jstr s => exact absurd h (by simp)
        | jarr xs => exact absurd h (by simp)

/-- The field list of a journal file that lacks the `manual_trades` key. -/
def fieldsMissingManual : List (String × JVal) :=
  [("trades", JVal.jarr [JVal.jobj [("id", JVal.jstr "t1")]]),
   ("reflections", JVal.jobj [("patterns", JVal.jstr "")])]

/-- A filesystem holding that file as the primary journal. -/
def fsMissingManual : String → Option JFile :=
  fun p =>
    if p = "trade-log-20260101.json" then some (JFile.parsed (JVal.jobj fieldsMissingManual))
    else none

/-- C6, witness: loading the concrete file without `manual_trades` succeeds
and the loaded document's `manual_trades` is the empty array. -/
theorem C6_load_backfills_witness :
    load_journal_data fsMissingManual "trade-log-20260101.json" =
      LoadResult.doc (JVal.jobj (backfillRequired fieldsMissingManual)) ∧
    lookupField (backfillRequired fieldsMissingManual) "manual_trades" =
      some (JVal.jarr []) := by
  refine ⟨C6_load_backfills.1 fsMissingManual "trade-log-20260101.json"
    fieldsMissingManual rfl, ?_⟩
  have h := (C6_load_backfills.2.1 fieldsMissingManual "manual_trades"
    (by decide)).2.1 rfl
  rw [h, if_neg (by decide)]

/-! ## Claim C9 -/

/-- A manual trade already carrying the timestamp-derived identifier. -/
def dupTrade : Trade :=
  { id := "manual-1700000000.0", coin := "BTC", side := "Long", size := 1, price := 100,
    pnl := 0, fee := 0, time := "2023-11-14 22:13:20", ttype := "Manual Trade" }

/-- Concrete manual-trade form input. -/
def someForm : ManualForm :=
  { asset := "ETH", position_type := "Short", size := 2, price := 2000, pnl := 5, fees := 1,
    leverage := 3, entry_str := "2023-11-14 22:13:20" }

/-- Concrete emotional-analysis form output. -/
def someEmo : EmotionalData :=
  { emotional_state := "Fear", triggers := "", mistakes := "", corrective_action := "" }

/-- C9, counterexample: the add handler consults no existing identifier — it
assigns `manual-` plus the current timestamp unconditionally (app.py line
434), so adding while an existing trade already carries that identifier
produces a duplicate: from a journal with the single identifier
`manual-1700000000.0` (which is `Nodup`), adding at the same timestamp yields
the combined identifier list `[manual-1700000000.0, manual-1700000000.0]`. -/
theorem C9_no_collision_check_counterexample :
    journal_ids (add_manual_trade "1700000000.0" "2023-11-14 22:13:21" someForm someEmo
      { trades := [], manual_trades := [dupTrade] }) =
      ["manual-1700000000.0", "manual-1700000000.0"] ∧
    (journal_ids { trades := [], manual_trades := [dupTrade] }).Nodup := by
  constructor
  · rfl
  · decide

/-- C9, amended: on add confirmation the trade is assigned the identifier
`manual-` followed by the current timestamp and appended to `manual_trades`;
no collision check against existing identifiers is performed, so the
identifier-uniqueness invariant of the combined trade list is preserved
exactly when that timestamp-derived string differs from every existing
identifier in both lists. -/
theorem C9_add_preserves_nodup :
    ∀ (nowTs nowFmt : String) (form : ManualForm) (emo : EmotionalData) (st : AppState),
      ("manual-" ++ nowTs) ∉ journal_ids st →
      (journal_ids st).Nodup →
      journal_ids (add_manual_trade nowTs nowFmt form emo st) =
        journal_ids st ++ ["manual-" ++ nowTs] ∧
      (journal_ids (add_manual_trade nowTs nowFmt form emo st)).Nodup := by
  intro nowTs nowFmt form emo st hnotin hnd
  have heq : journal_ids (add_manual_trade nowTs nowFmt form emo st) =
      journal_ids st ++ ["manual-" ++ nowTs] := by
    unfold journal_ids add_manual_trade
    simp [← List.append_assoc]
  refine ⟨heq, ?_⟩
  rw [heq]
  simp only [List.nodup_append, List.nodup_cons, List.not_mem_nil, not_false_iff,
    List.nodup_nil, and_true, true_and]
  constructor
  · exact hnd
  · intro a ha hb
    simp only [List.mem_singleton] at hb
    subst hb
    exact hnotin ha

/-- C9, witness: `C9_add_preserves_nodup` at a fresh timestamp. -/
theorem C9_add_preserves_nodup_witness :
    journal_ids (add_manual_trade "1700000001.5" "2023-11-14 22:13:21" someForm someEmo
      { trades := [], manual_trades := [dupTrade] }) =
      journal_ids { trades := [], manual_trades := [dupTrade] } ++ ["manual-1700000001.5"] ∧
    (journal_ids (add_manual_trade "1700000001.5" "2023-11-14 22:13:21" someForm someEmo
      { trades := [], manual_trades := [dupTrade] })).Nodup :=
  C9_add_preserves_nodup "1700000001.5" "2023-11-14 22:13:21" someForm someEmo
    { trades := [], manual_trades := [dupTrade] } (by decide) (by decide)

/-! ## Claim C10 -/

/-- C10: a successful fetch replaces the API trade list with exactly the first
`min 10 (number of fills)` fills, each formatted for display — element `i` of
the new list is the formatted fill `i` for `i < 10` and fills beyond the first
ten are discarded — and `manual_trades` is left unchanged. -/
theorem C10_fetch_truncates :
    ∀ (env : PyEnv) (fills : List Fill) (st : AppState),
      (fetch_latest_trades env fills st).manual_trades = st.manual_trades ∧
      (fetch_latest_trades env fills st).trades.length = min 10 fills.length ∧
      ∀ i : Nat, (fetch_latest_trades env fills st).trades[i]? =
        if i < 10 then (fills[i]?).map (format_trade_for_display env) else none := by
  intro env fills st
  refine ⟨rfl, ?_, ?_⟩
  · simp [fetch_latest_trades]
  · intro i
    by_cases hi : i < 10
    · simp [fetch_latest_trades, hi, List.getElem?_take]
    · have hlen : (fills.take 10).length ≤ i := by
        simp only [List.length_take]
        omega
      rw [if_neg hi]
      show ((fills.take 10).map (format_trade_for_display env))[i]? = none
      rw [List.getElem?_map, List.getElem?_eq_none hlen]
      rfl

/-! ## Claim C7

Sortedness of the key order that `json.dump(..., sort_keys=True)` emits. -/

theorem lexLe_total : ∀ (x y : List Char), lexLe x y = true ∨ lexLe y x = true
  | [], _ => Or.inl rfl
  | _ :: _, [] => Or.inr rfl
  | a :: as, b :: bs => by
    by_cases hab : a = b
    · subst hab
      simp only [lexLe, if_pos rfl]
      exact lexLe_total as bs
    · rcases lt_or_gt_of_ne hab with h | h
      · left
        simp only [lexLe, if_neg hab]
        exact decide_eq_true h
      · right
        have hba : ¬(b = a) := fun hh => hab hh.symm
        simp only [lexLe, if_neg hba]
        exact decide_eq_true h

theorem pairKeyLe_total (p q : String × JVal) :
    pairKeyLe p q = true ∨ pairKeyLe q p = true :=
  lexLe_total p.1.data q.1.data

theorem chainLeB_tail (le : α → α → Bool) (b : α) (l : List α)
    (h : chainLeB le (b :: l) = true) : chainLeB le l = true := by
  cases l with
  | nil => rfl
  | cons c t =>
    simp only [chainLeB, Bool.and_eq_true] at h
    exact h.2

theorem chainLeB_cons (le : α → α → Bool) (b : α) (l : List α)
    (hhd : ∀ c, l.head? = some c → le b c = true)
    (h : chainLeB le l = true) : chainLeB le (b :: l) = true := by
  cases l with
  | nil => rfl
  | cons c t =>
    simp only [chainLeB, Bool.and_eq_true]
    exact ⟨hhd c rfl, h⟩

theorem insertLe_head_cases (le : α → α → Bool) (a : α) :
    ∀ (l : List α), (insertLe le a l).head? = some a ∨ (insertLe le a l).head? = l.head?
  | [] => Or.inl rfl
  | b :: t => by
    by_cases h : le a b = true
    · left
      simp [insertLe, h]
    · right
      simp [insertLe, h]

theorem chainLeB_insertLe (le : α → α → Bool)
    (htot : ∀ a b, le a b = true ∨ le b a = true) :
    ∀ (l : List α) (a : α), chainLeB le l = true → chainLeB le (insertLe le a l) = true
  | [], a, _ => rfl
  | b :: t, a, h => by
    by_cases hab : le a b = true
    · simp only [insertLe, if_pos hab]
      exact chainLeB_cons le a (b :: t) (fun c hc => by
        simp only [List.head?_cons, Option.some.injEq] at hc
        rw [← hc]
        exact hab) h
    · simp only [insertLe, if_neg hab]
      have hba : le b a = true := (htot a b).resolve_left hab
      have hrec := chainLeB_insertLe le htot t a (chainLeB_tail le b t h)
      refine chainLeB_cons le b (insertLe le a t) (fun c hc => ?_) hrec
      rcases insertLe_head_cases le a t with hh | hh
      · rw [hh] at hc
        obtain rfl : a = c := Option.some.inj hc
        exact hba
      · rw [hh] at hc
        cases t with
        | nil => simp at hc
        | cons d t' =>
          obtain rfl : d = c := Option.some.inj hc
          simp only [chainLeB, Bool.and_eq_true] at h
          exact h.1

theorem chainLeB_isortLe (le : α → α → Bool)
    (htot : ∀ a b, le a b = true ∨ le b a = true) :
    ∀ (l : List α), chainLeB le (isortLe le l) = true
  | [] => rfl
  | a :: t => by
    simp only [isortLe, List.foldr_cons]
    exact chainLeB_insertLe le htot (isortLe le t) a (chainLeB_isortLe le htot t)

theorem keysSortedObjB_insertLe (p : String × JVal) :
    ∀ (l : List (String × JVal)), keysSortedObjB l = true → keysSortedB p.2 = true →
      keysSortedObjB (insertLe pairKeyLe p l) = true
  | [], _, hp => by simp [insertLe, keysSortedObjB, hp]
  | q :: t, h, hp => by
    simp only [keysSortedObjB, Bool.and_eq_true] at h
    by_cases hle : pairKeyLe p q = true
    · simp only [insertLe, if_pos hle, keysSortedObjB, Bool.and_eq_true]
      exact ⟨hp, h.1, h.2⟩
    · simp only [insertLe, if_neg hle, keysSortedObjB, Bool.and_eq_true]
      exact ⟨h.1, keysSortedObjB_insertLe p t h.2 hp⟩

theorem keysSortedObjB_sortPairs :
    ∀ (l : List (String × JVal)), keysSortedObjB l = true →
      keysSortedObjB (sortPairs l) = true
  | [], _ => rfl
  | p :: t, h => by
    simp only [keysSortedObjB, Bool.and_eq_true] at h
    simp only [sortPairs, isortLe, List.foldr_cons]
    exact keysSortedObjB_insertLe p (isortLe pairKeyLe t)
      (by
        have := keysSortedObjB_sortPairs t h.2
        simpa [sortPairs, isortLe] using this) h.1

mutual
theorem keysSortedB_sortKeysRec : ∀ (v : JVal), keysSortedB (sortKeysRec v) = true
  | .jnull => rfl
  | .jbool _ => rfl
  | .jnum _ => rfl
  | .jstr _ => rfl
  | .jarr xs => by
    simp only [sortKeysRec, keysSortedB]
    exact keysSortedArrB_sortKeysArr xs
  | .jobj fields => by
    simp only [sortKeysRec, keysSortedB, Bool.and_eq_true]
    constructor
    · exact chainLeB_isortLe pairKeyLe pairKeyLe_total (sortKeysObj fields)
    · exact keysSortedObjB_sortPairs (sortKeysObj fields)
        (keysSortedObjB_sortKeysObj fields)

theorem keysSortedArrB_sortKeysArr : ∀ (xs : List JVal),
    keysSortedArrB (sortKeysArr xs) = true
  | [] => rfl
  | x :: xs => by
    simp only [sortKeysArr, keysSortedArrB, Bool.and_eq_true]
    exact ⟨keysSortedB_sortKeysRec x, keysSortedArrB_sortKeysArr xs⟩

theorem keysSortedObjB_sortKeysObj : ∀ (fields : List (String × JVal)),
    keysSortedObjB (sortKeysObj fields) = true
  | [] => rfl
  | (k, v) :: fields => by
    simp only [sortKeysObj, keysSortedObjB, Bool.and_eq_true]
    exact ⟨keysSortedB_sortKeysRec v, keysSortedObjB_sortKeysObj fields⟩
end

theorem append_backup_ne (s : String) : s ++ ".backup" ≠ s := by
  intro h
  have hl := congrArg String.length h
  rw [String.length_append] at hl
  have h7 : (".backup" : String).length = 7 := rfl
  omega

/-- C7: `save_journal_data` never lets an exception escape; its boolean result
is `True` exactly when the primary write succeeds; when the target file exists
and the copy succeeds its previous contents are first placed at
`path + ".backup"`; a failing backup copy does not block the primary write,
which stores the `json.dump(..., indent=4, sort_keys=True)` text of the
document — whose objects all carry their keys in sorted order. -/
theorem C7_save_contract :
    ∀ (env : SaveEnv) (fs : String → Option String) (filename : String) (data : JVal),
      (save_journal_data env fs filename data).raised = false ∧
      ((save_journal_data env fs filename data).ret = true ↔
        (env.openFails = false ∧ env.dumpFails = false)) ∧
      (∀ c, fs filename = some c → env.copyFails = false →
        (save_journal_data env fs filename data).fs (filename ++ ".backup") = some c) ∧
      (env.openFails = false → env.dumpFails = false →
        (save_journal_data env fs filename data).fs filename = some (pyJsonDumps data)) ∧
      keysSortedB (sortKeysRec data) = true := by
  intro env fs filename data
  have hne := append_backup_ne filename
  refine ⟨?_, ?_, ?_, ?_, keysSortedB_sortKeysRec data⟩
  · unfold save_journal_data
    rcases fs filename with _ | c <;>
      rcases ho : env.openFails <;> rcases hd : env.dumpFails <;> simp [ho, hd]
  · unfold save_journal_data
    rcases fs filename with _ | c <;>
      rcases ho : env.openFails <;> rcases hd : env.dumpFails <;> simp [ho, hd]
  · intro c hc hcopy
    unfold save_journal_data
    rw [hc]
    rcases ho : env.openFails <;> rcases hd : env.dumpFails <;>
      simp [hcopy, fsSet, hne, ho, hd]
  · intro ho hd
    unfold save_journal_data
    rcases fs filename with _ | c <;> rcases hcopy : env.copyFails <;>
      simp [ho, hd, hcopy, fsSet]

/-- A filesystem with existing journal contents at the save target. -/
def fsWithOld : String → Option String :=
  fun p => if p = "trade-log-20260101.json" then some "old-contents" else none

/-- A run in which every I/O step succeeds. -/
def envAllOk : SaveEnv := { copyFails := false, openFails := false, dumpFails := false }

/-- An unsorted two-field document. -/
def docBA : JVal := JVal.jobj [("b", JVal.jnum 1), ("a", JVal.jnum 2)]

/-- C7, witness: `C7_save_contract` on a concrete save over an existing file. -/
theorem C7_save_contract_witness :
    (save_journal_data envAllOk fsWithOld "trade-log-20260101.json" docBA).raised = false ∧
    (save_journal_data envAllOk fsWithOld "trade-log-20260101.json" docBA).ret = true ∧
    (save_journal_data envAllOk fsWithOld "trade-log-20260101.json" docBA).fs
      ("trade-log-20260101.json" ++ ".backup") = some "old-contents" ∧
    (save_journal_data envAllOk fsWithOld "trade-log-20260101.json" docBA).fs
      "trade-log-20260101.json" = some (pyJsonDumps docBA) :=
  ⟨(C7_save_contract envAllOk fsWithOld "trade-log-20260101.json" docBA).1,
   (C7_save_contract envAllOk fsWithOld "trade-log-20260101.json" docBA).2.1.mpr ⟨rfl, rfl⟩,
   (C7_save_contract envAllOk fsWithOld "trade-log-20260101.json" docBA).2.2.1
     "old-contents" rfl rfl,
   (C7_save_contract envAllOk fsWithOld "trade-log-20260101.json" docBA).2.2.2.1 rfl rfl⟩

/-! ## Claim C3 -/

theorem pySplitCS_sep_cons (r : List Char) :
    pySplitCS (',' :: ' ' :: r) = [] :: pySplitCS r := rfl

theorem hasSep_cons_cases (c d : Char) (x' : List Char)
    (h : hasSep (c :: d :: x') = false) :
    ¬(c = ',' ∧ d = ' ') ∧ hasSep (d :: x') = false := by
  rw [hasSep, Bool.or_eq_false_iff] at h
  refine ⟨fun hh => ?_, h.2⟩
  rw [hh.1, hh.2] at h
  simp at h

theorem pySplitCS_append_sep :
    ∀ (x r : List Char), hasSep x = false →
      pySplitCS (x ++ ',' :: ' ' :: r) = x :: pySplitCS r
  | [], r, _ => rfl
  | [c], r, h => by
    have hcd : ¬(c = ',' ∧ (',' : Char) = ' ') := by
      rintro ⟨-, hh⟩
      exact absurd hh (by decide)
    simp [pySplitCS, hcd]
  | c :: d :: x', r, h => by
    obtain ⟨hcd, ht⟩ := hasSep_cons_cases c d x' h
    have hrec : pySplitCS ((d :: x') ++ ',' :: ' ' :: r) = (d :: x') :: pySplitCS r :=
      pySplitCS_append_sep (d :: x') r ht
    simp only [List.cons_append] at hrec ⊢
    simp [pySplitCS, hcd, hrec]

theorem pySplitCS_no_sep :
    ∀ (x : List Char), hasSep x = false → pySplitCS x = [x]
  | [], _ => rfl
  | [c], _ => rfl
  | c :: d :: x', h => by
    obtain ⟨hcd, ht⟩ := hasSep_cons_cases c d x' h
    have hrec := pySplitCS_no_sep (d :: x') ht
    simp [pySplitCS, hcd, hrec]

theorem intercalate_cons_cons (sep x y : List α) (t : List (List α)) :
    List.intercalate sep (x :: y :: t) = x ++ sep ++ List.intercalate sep (y :: t) := by
  simp [List.intercalate, List.intersperse]

theorem intercalate_single (sep x : List α) :
    List.intercalate sep [x] = x := by
  simp [List.intercalate, List.intersperse]

theorem pySplitCS_intercalate :
    ∀ (l : List (List Char)), (∀ x ∈ l, hasSep x = false) → l ≠ [] →
      pySplitCS (List.intercalate [',', ' '] l) = l
  | [x], hall, _ => by
    rw [intercalate_single]
    exact pySplitCS_no_sep x (hall x (by simp))
  | x :: y :: t, hall, _ => by
    rw [intercalate_cons_cons, List.append_assoc]
    have h1 := pySplitCS_append_sep x (List.intercalate [',', ' '] (y :: t))
      (hall x (by simp))
    simp only [List.cons_append, List.nil_append] at h1 ⊢
    rw [h1, pySplitCS_intercalate (y :: t) (fun z hz => hall z (by simp [hz]))
      (by simp)]

theorem string_mk_data (v : String) : String.mk v.data = v := by
  cases v
  rfl

theorem string_data_ne_nil (v : String) (h : v ≠ "") : v.data ≠ [] := by
  intro hd
  apply h
  rw [← string_mk_data v, hd]

/-- C3, counterexample: the stored serialization joins `list(selected_set)` in
the set's iteration order and sorts nothing (only the on-screen summary at
line 197 sorts), so an iteration order `[Greed, Fear]` is serialized as
`"Greed, Fear"`, not the lexicographically sorted `"Fear, Greed"` the claim
requires; and a custom tag containing the separator (`"a, b"`) does not
round-trip — seeding its serialization yields the two values `a` and `b`. -/
theorem C3_unsorted_serialization_counterexample :
    (create_emotional_analysis_form_result ["Greed", "Fear"] [] [] []).emotional_state =
      "Greed, Fear" ∧
    spec_snapshot_serialize ["Greed", "Fear"] = "Fear, Greed" ∧
    (("Greed, Fear" : String) == "Fear, Greed") = false ∧
    seed_tag_values (serialize_tags ["a, b"]) = ["a", "b"] ∧
    List.elem "a, b" (seed_tag_values (serialize_tags ["a, b"])) = false := by
  decide

/-- C3, amended: the serialized tag string is `", ".join` of the selection in
the underlying set's iteration order (not sorted); serializing and then
seeding a fresh context recovers exactly the same set of values whenever every
selected value is non-empty, whitespace-trimmed and does not contain the
separator `", "`. -/
theorem C3_serialize_seed_roundtrip :
    ∀ (sel : List String),
      (∀ v ∈ sel, v ≠ "" ∧ pyStrip v.data = v.data ∧ hasSep v.data = false) →
      ∀ v : String, v ∈ seed_tag_values (serialize_tags sel) ↔ v ∈ sel := by
  intro sel hall v
  cases sel with
  | nil =>
    rw [show serialize_tags [] = "" from rfl]
    rw [show seed_tag_values "" = [] from rfl]
  | cons x t =>
    have hne : serialize_tags (x :: t) ≠ "" := by
      intro h
      have hd : (serialize_tags (x :: t)).data = [] := by
        rw [h]
      cases t with
      | nil =>
        rw [show (serialize_tags [x]).data =
          List.intercalate [',', ' '] [x.data] from rfl, intercalate_single] at hd
        exact string_data_ne_nil x (hall x (by simp)).1 hd
      | cons y t' =>
        rw [show (serialize_tags (x :: y :: t')).data =
          List.intercalate [',', ' '] (x.data :: y.data :: t'.map String.data) from rfl,
          intercalate_cons_cons] at hd
        simp at hd
    unfold seed_tag_values
    rw [if_neg hne]
    rw [show (serialize_tags (x :: t)).data =
      List.intercalate [',', ' '] ((x :: t).map String.data) from rfl]
    rw [pySplitCS_intercalate ((x :: t).map String.data)
      (by
        intro z hz
        obtain ⟨w, hw, rfl⟩ := List.mem_map.mp hz
        exact (hall w hw).2.2)
      (by simp)]
    rw [List.map_map]
    have hmap : ((x :: t).map ((fun l => String.mk (pyStrip l)) ∘ String.data)) = x :: t := by
      conv_rhs => rw [← List.map_id (x :: t)]
      apply List.map_congr_left
      intro w hw
      simp only [Function.comp_apply, id_eq]
      rw [(hall w hw).2.1]
    rw [hmap]
    rw [List.filter_eq_self.mpr]
    intro a ha
    simp only [Bool.not_eq_true']
    rw [beq_eq_false_iff_ne]
    exact (hall a ha).1

/-- C3, witness: `C3_serialize_seed_roundtrip` on the selection
`[Greed, Fear]`, whose values are trimmed, non-empty and separator-free. -/
theorem C3_serialize_seed_roundtrip_witness :
    ("Fear" ∈ seed_tag_values (serialize_tags ["Greed", "Fear"]) ↔
      "Fear" ∈ ["Greed", "Fear"]) :=
  C3_serialize_seed_roundtrip ["Greed", "Fear"] (by decide) "Fear"
